import Mathlib

/-!
Shallow embedding of `src/main.py` of the ai-code-reviewer action:
the diff-parsing and comment-validation pipeline
(`parse_diff_text`, `_classify_change`, `_validate_comment_line`,
`review_file_with_openai`, and the aggregation branch of `main`).

The text-to-patches step is performed by the third-party `whatthepatch`
library; the repository's own `parse_diff_text` consumes its output (a
sequence of patch objects, each with an optional header carrying
`new_path` and an optional list of changes, each change carrying
`old`/`new` optional line numbers and the line's text). We embed the
repository's functions over that patch representation, and separately
give a spec-modelled text-level parser for the claims that quantify over
raw diff text.
-/

namespace AICodeReviewer

/-- One change line of a file's diff body, as produced by `whatthepatch`:
`old`/`new` are the optional old/new line numbers, `line` is the text
without the diff marker. -/
structure Change where
  old : Option Int
  new : Option Int
  line : String
deriving DecidableEq

/-- The slice of a `whatthepatch` patch header used by `parse_diff_text`:
the declared new path, absent when the header does not carry one (Python
falsiness of `new_path` also covers the empty string, handled at use site). -/
structure Header where
  new_path : Option String
deriving DecidableEq

/-- A `whatthepatch` patch object: optional header and optional change list
(`patch.changes or []` in the source guards the `none` case). -/
structure Patch where
  header : Option Header
  changes : Option (List Change)
deriving DecidableEq

/-- An added line record as built by `parse_diff_text`:
`{"line": change.new, "content": change.line}`. -/
structure AddedLine where
  line : Int
  content : String
deriving DecidableEq

/-- A file entry of `parse_diff_text`'s output:
`{"path": file_path, "patch": patch, "added_lines": added_lines}`. -/
structure FileChange where
  path : String
  patch : Patch
  added_lines : List AddedLine
deriving DecidableEq

/-- A model-proposed review comment (the `ReviewComment` pydantic model). -/
structure ReviewComment where
  file : String
  line : Int
  comment : String
deriving DecidableEq

/-- The `CodeReview` pydantic model: a list of proposed comments. -/
structure CodeReview where
  comments : List ReviewComment
deriving DecidableEq

/-- A validated comment as appended by `review_file_with_openai`:
`{"path": comment.file, "line": comment.line, "body": comment.comment}`. -/
structure PostedComment where
  path : String
  line : Int
  body : String
deriving DecidableEq

/-- `_classify_change`: `'+'` when `old is None and new is not None`,
`'-'` when `old is not None and new is None`, `' '` otherwise. -/
def _classify_change (c : Change) : String :=
  if c.old = none ∧ c.new ≠ none then "+"
  else if c.old ≠ none ∧ c.new = none then "-"
  else " "

/-- Character-level body of the path normalization: drop one leading
`b/` when present, otherwise leave the characters unchanged. -/
def removePreChars : List Char → List Char
  | 'b' :: '/' :: rest => rest
  | l => l

/-- Python `str.removeprefix("b/")` as applied at
`patch.header.new_path.removeprefix("b/")`: drop one leading `b/` when
present, otherwise return the string unchanged. -/
def removePre (s : String) : String := String.mk (removePreChars s.toList)

/-- The added-line collection of `parse_diff_text`: the list comprehension
filtering `patch.changes` to `change.old is None and change.new is not None`
and mapping each to `{"line": change.new, "content": change.line}`. -/
def collectAddedLines (changes : List Change) : List AddedLine :=
  changes.filterMap fun c =>
    match c.old, c.new with
    | none, some n => some ⟨n, c.line⟩
    | _, _ => none

/-- The per-patch body of `parse_diff_text`'s loop: skip patches without a
truthy header/new path, skip the `/dev/null` deletion sentinel, strip the
`b/` revision marker, and keep the entry only when `added_lines` is
non-empty. -/
def processPatch (p : Patch) : Option FileChange :=
  match p.header with
  | none => none
  | some h =>
    match h.new_path with
    | none => none
    | some np =>
      if np = "" then none
      else if np = "/dev/null" then none
      else
        let added := collectAddedLines (p.changes.getD [])
        if added = [] then none
        else some ⟨ removePre np, p, added⟩

/-- `parse_diff_text` over the `whatthepatch` output: the loop appending
one file record per kept patch, in input order. -/
def parse_diff_text (patches : List Patch) : List FileChange :=
  patches.filterMap processPatch

/-- `_validate_comment_line`:
`any(added["line"] == comment_line for added in added_lines)`. -/
def _validate_comment_line (comment_line : Int) (added_lines : List AddedLine) : Bool :=
  added_lines.any fun added => added.line == comment_line

/-- The validation loop of `review_file_with_openai`: for each proposed
comment, append `{"path": comment.file, "line": comment.line,
"body": comment.comment}` when `_validate_comment_line` accepts, else drop. -/
def validateComments (comments : List ReviewComment) (added_lines : List AddedLine) :
    List PostedComment :=
  comments.foldl
    (fun acc c =>
      if _validate_comment_line c.line added_lines then
        acc ++ [⟨c.file, c.line, c.comment⟩]
      else acc)
    []

/-- The outcome of the model invocation inside `review_file_with_openai`'s
`try` block: a parsed `CodeReview` (possibly `None`), or any raised
exception (network error, timeout, malformed response). -/
inductive ModelResult where
  | ok : Option CodeReview → ModelResult
  | fail : String → ModelResult
deriving DecidableEq

/-- `review_file_with_openai`: on any exception return `[]`; on a missing or
empty parsed review return `[]`; otherwise run the validation loop. -/
def review_file_with_openai (result : ModelResult) (file_data : FileChange) :
    List PostedComment :=
  match result with
  | ModelResult.fail _ => []
  | ModelResult.ok none => []
  | ModelResult.ok (some review) =>
      if review.comments = [] then []
      else validateComments review.comments file_data.added_lines

/-- The per-file loop of `main`: `all_comments.extend(comments)` over the
parsed files, with the model invocation abstracted as a per-file oracle. -/
def collectComments (model : FileChange → ModelResult) (files : List FileChange) :
    List PostedComment :=
  files.foldl (fun acc fd => acc ++ review_file_with_openai (model fd) fd) []

/-- `REVIEW_HEADER` constant from the source. -/
def REVIEW_HEADER : String := "🤖 **AI Code Review**"

/-- `REVIEW_BODY_WITH_COMMENTS` constant from the source. -/
def REVIEW_BODY_WITH_COMMENTS : String :=
  REVIEW_HEADER ++ "\n\nI found some areas that could be improved:"

/-- `REVIEW_BODY_NO_ISSUES` constant from the source. -/
def REVIEW_BODY_NO_ISSUES : String :=
  REVIEW_HEADER ++ "\n\n✅ Code reviewed! No significant issues found."

/-- Split a character sequence into lines at newline characters, the current
line accumulated in reverse. -/
def splitLinesAux : List Char → List Char → List (List Char)
  | acc, [] => [acc.reverse]
  | acc, c :: cs =>
      if c = '\n' then acc.reverse :: splitLinesAux [] cs
      else splitLinesAux (c :: acc) cs

/-- The lines of a string, as character lists. -/
def splitLines (s : String) : List (List Char) := splitLinesAux [] s.toList

/-- Whether a line begins with the given character pattern. -/
def startsWithChars : List Char → List Char → Bool
  | _, [] => true
  | [], _ :: _ => false
  | c :: cs, p :: ps => c = p && startsWithChars cs ps

/-- The new-path file-header marker of a unified diff (`+++ `). -/
def headPat : List Char := ['+', '+', '+', ' ']

/-- Split a character list at a separator character. -/
def splitOnChar (sep : Char) : List Char → List (List Char)
  | [] => [[]]
  | c :: cs =>
      if c = sep then [] :: splitOnChar sep cs
      else
        match splitOnChar sep cs with
        | [] => [[c]]
        | l :: ls => (c :: l) :: ls

/-- Read a non-empty all-digit character list as a number. -/
def parseNatChars (cs : List Char) : Option Nat :=
  if cs ≠ [] ∧ cs.all (fun c => c.isDigit) then
    some (cs.foldl (fun n c => n * 10 + (c.toNat - 48)) 0)
  else none

/-- The start line number a hunk header `@@ -a,b +c,d @@` declares for the
side marked by `sign` (`-` old, `+` new). -/
def hunkStart (sign : Char) (l : List Char) : Option Int :=
  match (splitOnChar ' ' l).find? (fun p => p.head? = some sign) with
  | none => none
  | some p =>
      match splitOnChar ',' (p.drop 1) with
      | [] => none
      | d :: _ => (parseNatChars d).map Int.ofNat

/-- Flush the group under construction (new path, body lines in reverse). -/
def flushGroup : Option (List Char × List (List Char)) → List (List Char × List (List Char))
  | none => []
  | some g => [(g.1, g.2.reverse)]

/-- Group diff lines into per-file entries, one per discoverable `+++ `
file header, each paired with the body lines that follow it. -/
def groupAux :
    Option (List Char × List (List Char)) → List (List Char) →
      List (List Char × List (List Char))
  | cur, [] => flushGroup cur
  | cur, l :: rest =>
      if startsWithChars l headPat then
        flushGroup cur ++ groupAux (some (l.drop 4, [])) rest
      else
        match cur with
        | none => groupAux none rest
        | some g => groupAux (some (g.1, l :: g.2)) rest

/-- Number a file entry's body lines: hunk headers reset the old/new
counters, `+`/`-`/space lines become changes carrying the current
numbers, anything else is skipped. -/
def bodyAux : Option Int → Option Int → List (List Char) → List Change
  | _, _, [] => []
  | o, n, l :: rest =>
      if startsWithChars l ['@', '@'] then
        bodyAux (hunkStart '-' l) (hunkStart '+' l) rest
      else if startsWithChars l ['+'] then
        match n with
        | some k => ⟨none, some k, String.mk (l.drop 1)⟩ :: bodyAux o (some (k + 1)) rest
        | none => bodyAux o n rest
      else if startsWithChars l ['-'] then
        match o with
        | some k => ⟨some k, none, String.mk (l.drop 1)⟩ :: bodyAux (some (k + 1)) n rest
        | none => bodyAux o n rest
      else if startsWithChars l [' '] then
        match o, n with
        | some a, some b =>
            ⟨some a, some b, String.mk (l.drop 1)⟩ ::
              bodyAux (some (a + 1)) (some (b + 1)) rest
        | _, _ => bodyAux o n rest
      else bodyAux o n rest

/-- Modelled from the spec: `whatthepatch.parse_patch`, the third-party
unified-diff text parser `parse_diff_text` invokes, which is not part of
this repository's sources. Per the spec (§4.1), it discovers file headers
in the text and produces one patch entry per discovered file, with the
declared new path and the file's numbered change lines; malformed or empty
input in which no file headers are discoverable yields an empty result,
not an error. -/
def parse_patch (text : String) : List Patch :=
  (groupAux none (splitLines text)).map fun g =>
    { header := some { new_path := some (String.mk g.1) },
      changes := some (bodyAux none none g.2) }

/-- Python `not diff_text or not diff_text.strip()`: the text is empty or
all whitespace. -/
def isBlank (s : String) : Bool :=
  s.toList.all fun c =>
    c = ' ' || c = '\t' || c = '\n' || c = '\r' || c.toNat = 11 || c.toNat = 12

/-- The posting action taken at the end of `main`: either one
`pr.create_review` with a body and anchored comments, or one
`pr.create_issue_comment` with a body. -/
inductive Disposition where
  | inlineReview : String → List PostedComment → Disposition
  | summaryComment : String → Disposition
deriving DecidableEq

/-- The aggregation branch of `main`: `if all_comments:` create a review
with `REVIEW_BODY_WITH_COMMENTS` and the comments, else create an issue
comment with `REVIEW_BODY_NO_ISSUES`. -/
def postReview (all_comments : List PostedComment) : Disposition :=
  if all_comments ≠ [] then
    Disposition.inlineReview REVIEW_BODY_WITH_COMMENTS all_comments
  else Disposition.summaryComment REVIEW_BODY_NO_ISSUES

/-- The visible outcome of one run of `main` after the diff is fetched:
return early on a blank diff, return early when no files parse, or post
exactly one action. -/
inductive RunResult where
  | noChanges : RunResult
  | noFiles : RunResult
  | posted : Disposition → RunResult
deriving DecidableEq

/-- The diff-driven tail of `main`: the blank-diff early return, the parse
step, the empty-files early return, the per-file review loop and the
posting branch, with the model invocation abstracted as a per-file
oracle. -/
def runPipeline (diff_text : String) (model : FileChange → ModelResult) : RunResult :=
  if isBlank diff_text then RunResult.noChanges
  else
    let files := parse_diff_text (parse_patch diff_text)
    if files = [] then RunResult.noFiles
    else RunResult.posted (postReview (collectComments model files))

/-! ## Concrete scenario data -/

/-- A diff change adding `const x = 1;` as new-file line 42. -/
def demoChange : Change := { old := none, new := some 42, line := "const x = 1;" }

/-- A patch for `b/a.ts` whose only change is `demoChange`. -/
def demoPatch : Patch :=
  { header := some { new_path := some "b/a.ts" }, changes := some [demoChange] }

/-- The file record `parse_diff_text` produces for `demoPatch`. -/
def demoFile : FileChange :=
  { path := "a.ts", patch := demoPatch,
    added_lines := [{ line := 42, content := "const x = 1;" }] }

/-- A model response whose single comment targets line 42 but claims file
`b.ts`, a path different from the file under review. -/
def demoReview : CodeReview :=
  { comments := [{ file := "b.ts", line := 42, comment := "Consider renaming." }] }

/-- The comment record the pipeline posts for `demoReview` on `demoFile`. -/
def demoPosted : PostedComment := { path := "b.ts", line := 42, body := "Consider renaming." }

/-- A per-file model oracle that always raises. -/
def failModel : FileChange → ModelResult := fun _ => ModelResult.fail "timeout"

/-! ## Helper lemmas -/

/-- The validator's boolean is the existence of a matching added line. -/
theorem validate_iff (l : Int) (added : List AddedLine) :
    _validate_comment_line l added = true ↔ ∃ a ∈ added, a.line = l := by
  unfold _validate_comment_line
  rw [List.any_eq_true]
  constructor
  · rintro ⟨a, ha, hb⟩
    exact ⟨a, ha, by simpa using hb⟩
  · rintro ⟨a, ha, hb⟩
    exact ⟨a, ha, by simpa using hb⟩

/-- The append-accumulating validation loop is the order-preserving
filter of the proposed comments. -/
theorem validateComments_eq (comments : List ReviewComment) (added : List AddedLine) :
    validateComments comments added =
      comments.filterMap fun c =>
        if _validate_comment_line c.line added then
          some ⟨c.file, c.line, c.comment⟩
        else none := by
  have go : ∀ (cs : List ReviewComment) (acc : List PostedComment),
      cs.foldl
          (fun acc c =>
            if _validate_comment_line c.line added then
              acc ++ [⟨c.file, c.line, c.comment⟩]
            else acc)
          acc
        = acc ++ cs.filterMap fun c =>
            if _validate_comment_line c.line added then
              some ⟨c.file, c.line, c.comment⟩
            else none := by
    intro cs
    induction cs with
    | nil => intro acc; simp
    | cons c cs ih =>
      intro acc
      by_cases h : _validate_comment_line c.line added = true
      · simp [List.filterMap_cons, h, ih, List.append_assoc]
      · simp only [Bool.not_eq_true] at h
        simp [List.filterMap_cons, h, ih]
  simpa using go comments []

/-- `review_file_with_openai` on a parsed review is the filter of its
comments through the validator, each kept comment passed through
unchanged. -/
theorem review_file_eq (review : CodeReview) (fd : FileChange) :
    review_file_with_openai (ModelResult.ok (some review)) fd =
      review.comments.filterMap fun c =>
        if _validate_comment_line c.line fd.added_lines then
          some ⟨c.file, c.line, c.comment⟩
        else none := by
  by_cases h : review.comments = []
  · simp [review_file_with_openai, h]
  · simp [review_file_with_openai, h, validateComments_eq]

/-- Folding the per-file extend loop from any accumulator prepends the
accumulator to the fold from nil. -/
theorem collectComments_go (model : FileChange → ModelResult) :
    ∀ (files : List FileChange) (acc : List PostedComment),
      files.foldl (fun acc fd => acc ++ review_file_with_openai (model fd) fd) acc
        = acc ++ collectComments model files := by
  intro files
  induction files with
  | nil => intro acc; simp [collectComments]
  | cons fd fds ih =>
    intro acc
    simp only [collectComments, List.foldl_cons, List.nil_append]
    rw [ih, ih (review_file_with_openai (model fd) fd), List.append_assoc]

/-- The added-line collection is empty exactly when no change is an
addition (old number absent, new number present). -/
theorem collectAddedLines_eq_nil (changes : List Change) :
    collectAddedLines changes = [] ↔ ∀ c ∈ changes, ¬(c.old = none ∧ c.new ≠ none) := by
  unfold collectAddedLines
  rw [List.filterMap_eq_nil_iff]
  constructor
  · intro h c hc
    have hcc := h c hc
    rcases c with ⟨o, n, t⟩
    cases o <;> cases n <;> simp_all
  · intro h c hc
    have hcc := h c hc
    rcases c with ⟨o, n, t⟩
    cases o <;> cases n <;> simp_all

/-- The added-line collection is the filter of the changes through the
`+` classification of `_classify_change`, keeping each one's new line
number and text. -/
theorem collectAddedLines_classify (changes : List Change) :
    collectAddedLines changes =
      changes.filterMap fun c =>
        if _classify_change c = "+" then some ⟨(c.new.getD 0 : Int), c.line⟩
        else none := by
  induction changes with
  | nil => rfl
  | cons c cs ih =>
    rcases c with ⟨o, n, t⟩
    cases o <;> cases n <;>
      simp_all [collectAddedLines, List.filterMap_cons, _classify_change]

/-- The new line numbers carried by the added-line collection, in order. -/
theorem collectAddedLines_map_line (changes : List Change) :
    (collectAddedLines changes).map (fun a => a.line) =
      changes.filterMap fun c =>
        match c.old, c.new with
        | none, some n => some n
        | _, _ => none := by
  induction changes with
  | nil => rfl
  | cons c cs ih =>
    rcases c with ⟨o, n, t⟩
    cases o <;> cases n <;>
      simp_all [collectAddedLines, List.filterMap_cons]

/-- What a kept patch record contains: the patch itself, the added lines
collected from its changes, and the prefix-stripped declared new path. -/
theorem processPatch_some_elim (p : Patch) (fc : FileChange)
    (h : processPatch p = some fc) :
    fc.patch = p ∧
    fc.added_lines = collectAddedLines (p.changes.getD []) ∧
    ∃ h0 np, p.header = some h0 ∧ h0.new_path = some np ∧ np ≠ "" ∧
      np ≠ "/dev/null" ∧ fc.path = removePre np ∧
      collectAddedLines (p.changes.getD []) ≠ [] := by
  rcases p with ⟨hdr, chs⟩
  rcases hdr with _ | hdr0
  · simp [processPatch] at h
  rcases hdr0 with ⟨np0⟩
  rcases np0 with _ | np
  · simp [processPatch] at h
  simp only [processPatch] at h
  split_ifs at h with h1 h2 h3
  obtain rfl := (Option.some_inj.mp h).symm
  exact ⟨rfl, rfl, ⟨some np⟩, np, rfl, rfl, h1, h2, rfl, h3⟩

/-- A patch whose header declares a usable non-deletion path and whose
changes contain an addition is kept. -/
theorem processPatch_isSome (p : Patch) (h0 : Header) (np : String)
    (hh : p.header = some h0) (hnp : h0.new_path = some np)
    (h1 : np ≠ "") (h2 : np ≠ "/dev/null")
    (h3 : collectAddedLines (p.changes.getD []) ≠ []) :
    processPatch p =
      some ⟨ removePre np, p, collectAddedLines (p.changes.getD [])⟩ := by
  rcases p with ⟨hdr, chs⟩
  simp only at hh
  subst hh
  rcases h0 with ⟨np0⟩
  simp only [Header.new_path] at hnp
  subst hnp
  simp only [processPatch]
  rw [if_neg h1, if_neg h2, if_neg h3]

/-- A character sequence that does not open with `b/` is left unchanged
by the strip. -/
theorem removePreChars_eq_self (l : List Char)
    (h : startsWithChars l ['b', '/'] = false) :
    removePreChars l = l := by
  rw [removePreChars.eq_def]
  split
  · rename_i rest
    simp [startsWithChars] at h
  · rfl

/-- Stripping twice agrees with stripping once on any character sequence
that does not open with `b/b/`. -/
theorem removePreChars_idem (l : List Char)
    (h : startsWithChars l ['b', '/', 'b', '/'] = false) :
    removePreChars (removePreChars l) = removePreChars l := by
  by_cases hbl : startsWithChars l ['b', '/'] = true
  · rcases l with _ | ⟨c1, _ | ⟨c2, r⟩⟩
    · simp [startsWithChars] at hbl
    · simp [startsWithChars] at hbl
    · simp only [startsWithChars, Bool.and_eq_true, decide_eq_true_eq] at hbl
      obtain ⟨rfl, rfl, -⟩ := hbl
      have e : removePreChars ('b' :: '/' :: r) = r := rfl
      rw [e]
      apply removePreChars_eq_self
      simpa [startsWithChars] using h
  · have h2 := removePreChars_eq_self l (by simpa using hbl)
    rw [h2]
    exact h2

/-- With no discoverable file header among the lines, the grouping pass
discovers nothing. -/
theorem groupAux_nil_of_no_head (lines : List (List Char))
    (h : ∀ l ∈ lines, startsWithChars l headPat = false) :
    groupAux none lines = [] := by
  induction lines with
  | nil => rfl
  | cons l rest ih =>
    have hl := h l (List.mem_cons_self l rest)
    simp only [groupAux, hl, Bool.false_eq_true, if_false]
    exact ih fun x hx => h x (List.mem_cons_of_mem _ hx)

/-! ## Claim theorems -/

/-- Claim C1, counterexample. The claim as stated is false at a concrete
input: reviewing `demoFile` (path `a.ts`, added line 42), the model
comment claiming file `b.ts` at line 42 passes validation and is emitted
with path `b.ts`, yet no `FileChange` in the parser's output has path
`b.ts`, so the emitted path is not the path of the `FileChange` that
contains the added line. -/
theorem C1_validated_path_counterexample :
    parse_diff_text [demoPatch] = [demoFile] ∧
    review_file_with_openai (ModelResult.ok (some demoReview)) demoFile = [demoPosted] ∧
    ∀ fc ∈ parse_diff_text [demoPatch],
      ¬(fc.path = demoPosted.path ∧ ∃ a ∈ fc.added_lines, a.line = demoPosted.line) := by
  decide

/-- Claim C1, amended. Every comment that passes validation and is emitted
for posting has its line equal to some `AddedLine.lineNumber` of the
`FileChange` it was validated against (the file currently under review);
the path it carries is the comment's own `file` field, passed through
without being checked against that `FileChange`'s path. -/
theorem C1_validated_line_in_reviewed_file (fd : FileChange) (review : CodeReview)
    (p : PostedComment)
    (hp : p ∈ review_file_with_openai (ModelResult.ok (some review)) fd) :
    (∃ a ∈ fd.added_lines, a.line = p.line) ∧
    ∃ c ∈ review.comments, p.path = c.file ∧ p.line = c.line ∧ p.body = c.comment := by
  rw [review_file_eq] at hp
  obtain ⟨c, hc, hsome⟩ := List.mem_filterMap.mp hp
  by_cases hv : _validate_comment_line c.line fd.added_lines = true
  · rw [if_pos hv] at hsome
    obtain rfl := (Option.some_inj.mp hsome).symm
    obtain ⟨a, ha, hal⟩ := (validate_iff _ _).mp hv
    exact ⟨⟨a, ha, hal⟩, c, hc, rfl, rfl, rfl⟩
  · rw [if_neg hv] at hsome
    cases hsome

/-- Claim C1, witness: the amended statement instantiated at the concrete
scenario. -/
theorem C1_validated_line_witness :
    demoPosted ∈ review_file_with_openai (ModelResult.ok (some demoReview)) demoFile ∧
    ((∃ a ∈ demoFile.added_lines, a.line = demoPosted.line) ∧
      ∃ c ∈ demoReview.comments,
        demoPosted.path = c.file ∧ demoPosted.line = c.line ∧ demoPosted.body = c.comment) :=
  ⟨by decide,
    C1_validated_line_in_reviewed_file demoFile demoReview demoPosted (by decide)⟩

/-- Claim C2: against the `FileChange` it is validated under, the validator
accepts a comment iff some entry of `addedLines` has the comment's line
number; the per-file review output is exactly the order-preserving filter
of the proposed comments through that test, each accepted comment's line
and body (and file) passed through unchanged, each rejected comment
contributing nothing. -/
theorem C2_validator_accept_iff (c : ReviewComment) (fd : FileChange)
    (review : CodeReview) :
    (_validate_comment_line c.line fd.added_lines = true ↔
      ∃ a ∈ fd.added_lines, a.line = c.line) ∧
    review_file_with_openai (ModelResult.ok (some review)) fd =
      review.comments.filterMap fun cc =>
        if _validate_comment_line cc.line fd.added_lines then
          some ⟨cc.file, cc.line, cc.comment⟩
        else none :=
  ⟨validate_iff c.line fd.added_lines, review_file_eq review fd⟩

/-- Claim C3: a patch entry produces a `FileChange` in `parse_diff_text`'s
output iff its header declares a (non-empty) new path, that path is not
the deletion sentinel `/dev/null`, and some change is classified added
(old number absent, new number present); and everything in the output
arises from such an entry. -/
theorem C3_file_kept_iff (patches : List Patch) (p : Patch) (hp : p ∈ patches) :
    ((∃ fc ∈ parse_diff_text patches, processPatch p = some fc) ↔
      ∃ h0 np, p.header = some h0 ∧ h0.new_path = some np ∧ np ≠ "" ∧
        np ≠ "/dev/null" ∧ ∃ c ∈ p.changes.getD [], c.old = none ∧ c.new ≠ none) ∧
    ∀ fc ∈ parse_diff_text patches, ∃ q ∈ patches, processPatch q = some fc := by
  constructor
  · constructor
    · rintro ⟨fc, -, hfc⟩
      obtain ⟨-, -, h0, np, hh, hnp, h1, h2, -, hne⟩ := processPatch_some_elim p fc hfc
      refine ⟨h0, np, hh, hnp, h1, h2, ?_⟩
      by_contra hnone
      push_neg at hnone
      exact hne ((collectAddedLines_eq_nil _).mpr fun c hc hand =>
        hand.2 (hnone c hc hand.1))
    · rintro ⟨h0, np, hh, hnp, h1, h2, c, hc, hco, hcn⟩
      have hne : collectAddedLines (p.changes.getD []) ≠ [] := fun hnil =>
        (collectAddedLines_eq_nil _).mp hnil c hc ⟨hco, hcn⟩
      have he := processPatch_isSome p h0 np hh hnp h1 h2 hne
      exact ⟨_, List.mem_filterMap.mpr ⟨p, hp, he⟩, he⟩
  · intro fc hfc
    exact List.mem_filterMap.mp hfc

/-- Claim C3, witness: the characterization instantiated at the concrete
one-patch scenario. -/
theorem C3_file_kept_witness :
    demoPatch ∈ [demoPatch] ∧
    (((∃ fc ∈ parse_diff_text [demoPatch], processPatch demoPatch = some fc) ↔
        ∃ h0 np, demoPatch.header = some h0 ∧ h0.new_path = some np ∧ np ≠ "" ∧
          np ≠ "/dev/null" ∧
          ∃ c ∈ demoPatch.changes.getD [], c.old = none ∧ c.new ≠ none) ∧
      ∀ fc ∈ parse_diff_text [demoPatch], ∃ q ∈ [demoPatch], processPatch q = some fc) :=
  ⟨by decide, C3_file_kept_iff [demoPatch] demoPatch (by decide)⟩

/-- Claim C4: for every `FileChange` the parser outputs, `addedLines` is
exactly the order-preserving filter of its patch's changes to those
`_classify_change` marks `+`, each mapped to its new line number and
text — nothing omitted, renumbered or reordered. -/
theorem C4_added_lines_filter (patches : List Patch) (fc : FileChange)
    (hfc : fc ∈ parse_diff_text patches) :
    fc.added_lines =
      (fc.patch.changes.getD []).filterMap fun c =>
        if _classify_change c = "+" then some ⟨(c.new.getD 0 : Int), c.line⟩
        else none := by
  obtain ⟨p, hp, hpp⟩ := List.mem_filterMap.mp hfc
  obtain ⟨hpatch, hadded, -⟩ := processPatch_some_elim p fc hpp
  rw [hadded, hpatch, collectAddedLines_classify]

/-- Claim C4, witness: the filter characterization at the concrete file. -/
theorem C4_added_lines_witness :
    demoFile ∈ parse_diff_text [demoPatch] ∧
    demoFile.added_lines =
      (demoFile.patch.changes.getD []).filterMap fun c =>
        if _classify_change c = "+" then some ⟨(c.new.getD 0 : Int), c.line⟩
        else none :=
  ⟨by decide, C4_added_lines_filter [demoPatch] demoFile (by decide)⟩

/-- Claim C5: the disposition over the validated-comment set is exhaustive
and mutually exclusive — a non-empty set yields exactly the inline review
with the fixed introductory body and the comments anchored unchanged at
their `(file, line)`; an empty set yields exactly the no-issues summary
comment; never both, never neither. -/
theorem C5_disposition_total (comments : List PostedComment) :
    (comments = [] ∧
      postReview comments = Disposition.summaryComment REVIEW_BODY_NO_ISSUES ∧
      ∀ b cs, postReview comments ≠ Disposition.inlineReview b cs) ∨
    (comments ≠ [] ∧
      postReview comments = Disposition.inlineReview REVIEW_BODY_WITH_COMMENTS comments ∧
      ∀ b, postReview comments ≠ Disposition.summaryComment b) := by
  by_cases h : comments = []
  · left
    refine ⟨h, by simp [postReview, h], ?_⟩
    intro b cs hcontra
    simp [postReview, h] at hcontra
  · right
    refine ⟨h, by simp [postReview, h], ?_⟩
    intro b hcontra
    simp [postReview, h] at hcontra

/-- Claim C6, counterexample. Stripping the `b/` revision marker is not
idempotent: on `b/b/src.ts` one application yields `b/src.ts` and a second
application strips again, yielding `src.ts`. -/
theorem C6_idem_counterexample :
    removePre (removePre "b/b/src.ts") ≠ removePre "b/b/src.ts" := by
  decide

/-- Claim C6, amended. Path normalization is idempotent for every new path
that does not itself begin with the doubled marker `b/b/` (there, the
first strip exposes a second `b/`, which a second application also
strips); and a path that does not start with the prefix is returned
unchanged. -/
theorem C6_idem_amended (s : String)
    (h : startsWithChars s.toList ['b', '/', 'b', '/'] = false) :
    removePre (removePre s) = removePre s ∧
    (startsWithChars s.toList ['b', '/'] = false → removePre s = s) := by
  constructor
  · unfold removePre
    rw [show (String.mk (removePreChars s.toList)).toList = removePreChars s.toList
      from rfl]
    exact congrArg String.mk (removePreChars_idem _ h)
  · intro h2
    unfold removePre
    rw [removePreChars_eq_self _ h2]
    rcases s with ⟨d⟩
    rfl

/-- Claim C6, witness: the amended statement at a path without the
prefix. -/
theorem C6_idem_witness :
    startsWithChars ("lib/util.py" : String).toList ['b', '/', 'b', '/'] = false ∧
    (removePre (removePre "lib/util.py") = removePre "lib/util.py" ∧
      (startsWithChars ("lib/util.py" : String).toList ['b', '/'] = false →
        removePre "lib/util.py" = "lib/util.py")) :=
  ⟨by decide, C6_idem_amended "lib/util.py" (by decide)⟩

/-- Claim C7: on any input text in which no file header is discoverable
(malformed or empty diff text), the parser returns the empty list — it is
a total function, so no error is raised — and the run ends at one of the
two informational early returns, posting nothing. -/
theorem C7_malformed_input (text : String) (model : FileChange → ModelResult)
    (h : ∀ l ∈ splitLines text, startsWithChars l headPat = false) :
    parse_patch text = [] ∧
    parse_diff_text (parse_patch text) = [] ∧
    (runPipeline text model = RunResult.noChanges ∨
      runPipeline text model = RunResult.noFiles) := by
  have hp : parse_patch text = [] := by
    unfold parse_patch
    rw [groupAux_nil_of_no_head _ h]
    rfl
  refine ⟨hp, by rw [hp]; rfl, ?_⟩
  by_cases hb : isBlank text = true
  · left
    simp [runPipeline, hb]
  · right
    simp only [Bool.not_eq_true] at hb
    simp [runPipeline, hb, hp, parse_diff_text]

/-- Claim C7, witness: a malformed, non-diff text parses to nothing and the
run posts nothing. -/
theorem C7_malformed_witness :
    (∀ l ∈ splitLines "not a diff at all\nstill not", startsWithChars l headPat = false) ∧
    (parse_patch "not a diff at all\nstill not" = [] ∧
      parse_diff_text (parse_patch "not a diff at all\nstill not") = [] ∧
      (runPipeline "not a diff at all\nstill not" failModel = RunResult.noChanges ∨
        runPipeline "not a diff at all\nstill not" failModel = RunResult.noFiles)) :=
  ⟨by decide, C7_malformed_input "not a diff at all\nstill not" failModel (by decide)⟩

/-- Claim C8: when the model invocation for a file fails, that file's
review returns the empty comment list instead of propagating the error,
and the surrounding loop's result is exactly the comments of the files
before and after it — the failure never aborts the run. -/
theorem C8_failure_isolated (model : FileChange → ModelResult) (fd : FileChange)
    (err : String) (pre post : List FileChange)
    (h : model fd = ModelResult.fail err) :
    review_file_with_openai (model fd) fd = [] ∧
    collectComments model (pre ++ fd :: post) =
      collectComments model pre ++ collectComments model post := by
  have hrf : review_file_with_openai (model fd) fd = [] := by
    rw [h]
    rfl
  refine ⟨hrf, ?_⟩
  have e1 : collectComments model (pre ++ fd :: post)
      = List.foldl (fun acc fd2 => acc ++ review_file_with_openai (model fd2) fd2)
          (List.foldl (fun acc fd2 => acc ++ review_file_with_openai (model fd2) fd2)
            [] pre)
          (fd :: post) := by
    simp [collectComments, List.foldl_append]
  rw [e1, List.foldl_cons, hrf, List.append_nil, collectComments_go]
  rfl

/-- Claim C8, witness: the isolation statement at a concretely failing
oracle. -/
theorem C8_failure_witness :
    failModel demoFile = ModelResult.fail "timeout" ∧
    (review_file_with_openai (failModel demoFile) demoFile = [] ∧
      collectComments failModel ([] ++ demoFile :: [demoFile]) =
        collectComments failModel [] ++ collectComments failModel [demoFile]) :=
  ⟨rfl, C8_failure_isolated failModel demoFile "timeout" [] [demoFile] rfl⟩

/-- Claim C9: for every `FileChange` the parser outputs, as long as the
diff itself does not repeat a new-file line number among its added
changes (the spec's stated property of diffs), the `lineNumber`s of
`addedLines` are pairwise distinct. -/
theorem C9_added_lines_nodup (patches : List Patch) (fc : FileChange)
    (hfc : fc ∈ parse_diff_text patches)
    (hdiff : ((fc.patch.changes.getD []).filterMap fun c =>
        match c.old, c.new with
        | none, some n => some n
        | _, _ => none).Nodup) :
    (fc.added_lines.map fun a => a.line).Nodup := by
  obtain ⟨p, hp, hpp⟩ := List.mem_filterMap.mp hfc
  obtain ⟨hpatch, hadded, -⟩ := processPatch_some_elim p fc hpp
  rw [hadded, collectAddedLines_map_line]
  rw [hpatch] at hdiff
  exact hdiff

/-- Claim C9, witness: distinctness at the concrete file. -/
theorem C9_added_lines_witness :
    demoFile ∈ parse_diff_text [demoPatch] ∧
    ((demoFile.patch.changes.getD []).filterMap fun c =>
        match c.old, c.new with
        | none, some n => some n
        | _, _ => none).Nodup ∧
    (demoFile.added_lines.map fun a => a.line).Nodup :=
  ⟨by decide, by decide,
    C9_added_lines_nodup [demoPatch] demoFile (by decide) (by decide)⟩

/-- Claim C10: the validation decision is a function of the comment's line
and the added-line set only — two comments with the same line validated
against the same added lines get the same decision, whatever their file
names or texts, and a file's single-comment review output is empty for
one iff it is empty for the other. -/
theorem C10_decision_line_only (added : List AddedLine) (fd : FileChange)
    (c1 c2 : ReviewComment) (h : c1.line = c2.line) :
    _validate_comment_line c1.line added = _validate_comment_line c2.line added ∧
    (review_file_with_openai (ModelResult.ok (some ⟨[c1]⟩)) fd = [] ↔
      review_file_with_openai (ModelResult.ok (some ⟨[c2]⟩)) fd = []) := by
  constructor
  · rw [h]
  · rw [review_file_eq, review_file_eq]
    simp only [List.filterMap_cons, List.filterMap_nil]
    by_cases hv : _validate_comment_line c2.line fd.added_lines = true
    · rw [h]
      simp [hv]
    · simp only [Bool.not_eq_true] at hv
      rw [h]
      simp [hv]

/-- Claim C10, witness: two comments differing in file and text, same
line, get the same decision. -/
theorem C10_decision_witness :
    (ReviewComment.mk "a.ts" 42 "first text").line =
      (ReviewComment.mk "other.py" 42 "second text").line ∧
    (_validate_comment_line (ReviewComment.mk "a.ts" 42 "first text").line
        demoFile.added_lines =
      _validate_comment_line (ReviewComment.mk "other.py" 42 "second text").line
        demoFile.added_lines ∧
      (review_file_with_openai
          (ModelResult.ok (some ⟨[ReviewComment.mk "a.ts" 42 "first text"]⟩)) demoFile = [] ↔
        review_file_with_openai
          (ModelResult.ok (some ⟨[ReviewComment.mk "other.py" 42 "second text"]⟩))
          demoFile = [])) :=
  ⟨rfl,
    C10_decision_line_only demoFile.added_lines demoFile
      (ReviewComment.mk "a.ts" 42 "first text")
      (ReviewComment.mk "other.py" 42 "second text") rfl⟩

end AICodeReviewer
